import Mathlib

/-!
Verification of the client-side preference-aggregation logic of the
student-program-recommender UI (`src/ui/app.js`).

The JavaScript keeps a module-level list `selectedSkills` of records
`{ name, experience }` and derives a weighted interest string from it.
We embed that state as a `List SkillEntry` and each DOM-event handler or
helper function as a pure function on it.  Experience levels come from
`parseInt` in the source, so they are embedded as `Int`; the derived-query
builder `updateInterestsInput` uses `Array(skill.experience)`, which in
JavaScript throws a `RangeError` unless the argument is a valid array
length, so the embedding returns an `Option String` (`none` models the
thrown exception).
-/

set_option autoImplicit false

namespace StudentRecommender

/-- One element of the `selectedSkills` array: `{ name, experience }`. -/
structure SkillEntry where
  name : String
  experience : Int
  deriving Repr, DecidableEq

/-- JavaScript `Array.prototype.join` with separator `sep`: empty array
gives the empty string, a singleton gives its element, otherwise elements
interleaved with `sep`. -/
def joinSep (sep : String) : List String → String
  | [] => ""
  | [a] => a
  | a :: b :: rest => a ++ sep ++ joinSep sep (b :: rest)

/-- The per-skill computation of `updateInterestsInput` (src/ui/app.js line
165): `Array(n).fill(x)` joined by single spaces.  `Array(n)` throws a
`RangeError` unless `n` is a valid array length (a non-negative integer),
modelled by `none`. -/
def arrayFillJoin (n : Int) (x : String) : Option String :=
  if 0 ≤ n then some (joinSep " " (List.replicate n.toNat x)) else none

/-- The `selectedSkills.map(...)` inside `updateInterestsInput`, with the
exception from `Array(skill.experience)` propagating out (`none`). -/
def mapWeighted : List SkillEntry → Option (List String)
  | [] => some []
  | s :: rest => do
    let seg ← arrayFillJoin s.experience s.name
    let segs ← mapWeighted rest
    pure (seg :: segs)

/-- `updateInterestsInput` (src/ui/app.js lines 161-169): the weighted
interest string written to the hidden input, i.e. the derived
`toWeightedQuery()` of the spec.  `none` models a thrown `RangeError`. -/
def updateInterestsInput (skills : List SkillEntry) : Option String :=
  (mapWeighted skills).map (fun segs => joinSep ", " segs)

/-- `addSkill(skillName, experienceLevel)` (src/ui/app.js lines 103-117):
no-op if a skill of that name is already selected, otherwise pushes a new
entry at the end. -/
def addSkill (skillName : String) (experienceLevel : Int)
    (skills : List SkillEntry) : List SkillEntry :=
  if skills.any (fun s => s.name == skillName) then skills
  else skills ++ [⟨skillName, experienceLevel⟩]

/-- The add-skill button click handler (src/ui/app.js lines 73-89): returns
without touching the state when the selected name is empty (`!skillName`),
otherwise calls `addSkill`.  This guarded composition is the `add`
operation of the spec. -/
def addSkillBtnClick (skillName : String) (experienceLevel : Int)
    (skills : List SkillEntry) : List SkillEntry :=
  if skillName = "" then skills else addSkill skillName experienceLevel skills

/-- `removeSkill(skillName)` (src/ui/app.js lines 120-125):
`selectedSkills.filter(s => s.name !== skillName)`. -/
def removeSkill (skillName : String) (skills : List SkillEntry) :
    List SkillEntry :=
  skills.filter (fun s => s.name != skillName)

/-- `updateSkillExperience(skillName, newExperience)` (src/ui/app.js lines
128-134): `find` locates the first entry with the given name and its
`experience` field is overwritten with the (already `parseInt`-ed) value;
nothing happens when no entry matches.  The source performs no range check
and reports no error. -/
def updateSkillExperience (skillName : String) (newExperience : Int) :
    List SkillEntry → List SkillEntry
  | [] => []
  | s :: rest =>
    if s.name == skillName then { s with experience := newExperience } :: rest
    else s :: updateSkillExperience skillName newExperience rest

/-- The reset-button click handler (src/ui/app.js lines 403-412) sets
`selectedSkills = []`: the `clear()` operation of the spec. -/
def clearSkills (_skills : List SkillEntry) : List SkillEntry := []

/-- The request body built by the form submit handler:
`{ interests: interests }`. -/
structure RecommendRequest where
  interests : String
  deriving Repr, DecidableEq

/-- The message passed to `showError` by the submit handler when the
interest string or skill list is empty (src/ui/app.js lines 194 and 199). -/
def emptySkillErrorMessage : String :=
  "Please add at least one skill with experience level"

/-- JavaScript `String.prototype.trim`: leading and trailing whitespace
removed, embedded on the character list of the string. -/
def jsTrim (s : String) : String :=
  ⟨((s.data.dropWhile Char.isWhitespace).reverse.dropWhile
      Char.isWhitespace).reverse⟩

/-- The validation portion of the form submit handler (src/ui/app.js lines
183-206): blocks with an error when the trimmed interest string is empty
(the `!interests.trim()` check) or when no skills are selected, otherwise
constructs the request body. -/
def submitForm (interests : String) (skills : List SkillEntry) :
    Except String RecommendRequest :=
  if jsTrim interests = "" then Except.error emptySkillErrorMessage
  else if skills.length = 0 then Except.error emptySkillErrorMessage
  else Except.ok ⟨interests⟩

/-- Spec-side rendering of one entry, written from the wording of the spec:
"repeats the skill name `level` times (space-joined)".  Used only to state
the refinement in C2 against the source-side `updateInterestsInput`. -/
def specRepeatName (name : String) : Nat → String
  | 0 => ""
  | 1 => name
  | n + 2 => name ++ " " ++ specRepeatName name (n + 1)

/-- Spec-side weighted query, written from the wording of the spec: per-entry
segments in insertion order, joined with comma+space. -/
def specWeightedQuery (skills : List SkillEntry) : String :=
  joinSep ", " (skills.map (fun s => specRepeatName s.name s.experience.toNat))

/-- Invariant from the data model section of the spec: at most one entry per distinct
name in the collection. -/
def namesNodup (skills : List SkillEntry) : Prop :=
  (skills.map (fun s => s.name)).Nodup

instance (skills : List SkillEntry) : Decidable (namesNodup skills) := by
  unfold namesNodup; infer_instance

/-- States reachable from the empty session start through the UI
operations: add (button handler), remove, update experience, reset. -/
inductive Reachable : List SkillEntry → Prop where
  | init : Reachable []
  | add (s : List SkillEntry) (name : String) (level : Int) :
      Reachable s → Reachable (addSkillBtnClick name level s)
  | remove (s : List SkillEntry) (name : String) :
      Reachable s → Reachable (removeSkill name s)
  | setLevel (s : List SkillEntry) (name : String) (level : Int) :
      Reachable s → Reachable (updateSkillExperience name level s)
  | reset (s : List SkillEntry) : Reachable s → Reachable (clearSkills s)

/-! ## Helper lemmas shared by the claim theorems -/

theorem any_name_eq_true {s : List SkillEntry} {n : String}
    (h : ∃ e ∈ s, e.name = n) : s.any (fun e => e.name == n) = true := by
  obtain ⟨e, he, hname⟩ := h
  exact List.any_eq_true.mpr ⟨e, he, by simp [hname]⟩

theorem any_name_eq_false {s : List SkillEntry} {n : String}
    (h : ∀ e ∈ s, e.name ≠ n) : s.any (fun e => e.name == n) = false := by
  rw [List.any_eq_false]
  intro e he
  simp [h e he]

theorem addSkill_of_mem {s : List SkillEntry} {n : String} (L : Int)
    (h : ∃ e ∈ s, e.name = n) : addSkill n L s = s := by
  simp [addSkill, any_name_eq_true h]

theorem addSkill_of_not_mem {s : List SkillEntry} {n : String} (L : Int)
    (h : ∀ e ∈ s, e.name ≠ n) : addSkill n L s = s ++ [⟨n, L⟩] := by
  simp [addSkill, any_name_eq_false h]

theorem addSkillBtnClick_of_empty {s : List SkillEntry} (L : Int) :
    addSkillBtnClick "" L s = s := by
  simp [addSkillBtnClick]

theorem addSkillBtnClick_of_mem {s : List SkillEntry} {n : String} (L : Int)
    (h : ∃ e ∈ s, e.name = n) : addSkillBtnClick n L s = s := by
  by_cases hn : n = ""
  · simp [addSkillBtnClick, hn]
  · simp [addSkillBtnClick, hn, addSkill_of_mem L h]

theorem addSkillBtnClick_of_not_mem {s : List SkillEntry} {n : String}
    (L : Int) (hn : n ≠ "") (h : ∀ e ∈ s, e.name ≠ n) :
    addSkillBtnClick n L s = s ++ [⟨n, L⟩] := by
  simp [addSkillBtnClick, hn, addSkill_of_not_mem L h]

theorem removeSkill_not_mem {s : List SkillEntry} {n : String} :
    ∀ e ∈ removeSkill n s, e.name ≠ n := by
  intro e he
  have := (List.mem_filter.mp he).2
  simpa [bne_iff_ne] using this

theorem mem_removeSkill {s : List SkillEntry} {n : String} {e : SkillEntry}
    (he : e ∈ s) (hne : e.name ≠ n) : e ∈ removeSkill n s :=
  List.mem_filter.mpr ⟨he, by simpa [bne_iff_ne] using hne⟩

theorem removeSkill_of_not_mem {s : List SkillEntry} {n : String}
    (h : ∀ e ∈ s, e.name ≠ n) : removeSkill n s = s := by
  apply List.filter_eq_self.mpr
  intro e he
  simpa [bne_iff_ne] using h e he

theorem joinSep_replicate (x : String) :
    ∀ n : Nat, joinSep " " (List.replicate n x) = specRepeatName x n
  | 0 => rfl
  | 1 => rfl
  | n + 2 => by
    have ih := joinSep_replicate x (n + 1)
    have h2 : List.replicate (n + 2) x = x :: x :: List.replicate n x := by
      simp [List.replicate_succ]
    have h1 : List.replicate (n + 1) x = x :: List.replicate n x := by
      simp [List.replicate_succ]
    rw [h2, joinSep, ← h1, ih]
    rfl

theorem arrayFillJoin_of_nonneg {e : Int} (x : String) (h : 0 ≤ e) :
    arrayFillJoin e x = some (specRepeatName x e.toNat) := by
  simp [arrayFillJoin, h, joinSep_replicate]

theorem mapWeighted_eq_map {s : List SkillEntry}
    (h : ∀ e ∈ s, 0 ≤ e.experience) :
    mapWeighted s =
      some (s.map (fun e => specRepeatName e.name e.experience.toNat)) := by
  induction s with
  | nil => rfl
  | cons a t ih =>
    have ha : 0 ≤ a.experience := h a (List.mem_cons_self a t)
    have ht : ∀ e ∈ t, 0 ≤ e.experience :=
      fun e he => h e (List.mem_cons_of_mem a he)
    simp [mapWeighted, arrayFillJoin_of_nonneg a.name ha, ih ht]

theorem mapWeighted_eq_none {s : List SkillEntry}
    (h : ∃ e ∈ s, e.experience < 0) : mapWeighted s = none := by
  induction s with
  | nil => simp at h
  | cons a t ih =>
    obtain ⟨e, he, hlt⟩ := h
    rcases List.mem_cons.mp he with rfl | hmem
    · simp [mapWeighted, arrayFillJoin, not_le.mpr hlt]
    · cases hfa : arrayFillJoin a.experience a.name with
      | none => simp [mapWeighted, hfa]
      | some seg => simp [mapWeighted, hfa, ih ⟨e, hmem, hlt⟩]

theorem updateInterestsInput_of_nonneg {s : List SkillEntry}
    (h : ∀ e ∈ s, 0 ≤ e.experience) :
    updateInterestsInput s = some (specWeightedQuery s) := by
  simp [updateInterestsInput, mapWeighted_eq_map h, specWeightedQuery]

theorem names_updateSkillExperience (n : String) (L : Int)
    (s : List SkillEntry) :
    (updateSkillExperience n L s).map (fun e => e.name)
      = s.map (fun e => e.name) := by
  induction s with
  | nil => rfl
  | cons a t ih =>
    by_cases h : a.name = n
    · simp [updateSkillExperience, h]
    · simp [updateSkillExperience, h, ih]

theorem updateSkillExperience_of_not_found {s : List SkillEntry} {n : String}
    (L : Int) (h : ∀ e ∈ s, e.name ≠ n) :
    updateSkillExperience n L s = s := by
  induction s with
  | nil => rfl
  | cons a t ih =>
    have ha := h a (List.mem_cons_self a t)
    have ht : ∀ e ∈ t, e.name ≠ n := fun e he => h e (List.mem_cons_of_mem a he)
    simp [updateSkillExperience, ha, ih ht]

theorem namesNodup_addSkillBtnClick {s : List SkillEntry} (n : String)
    (L : Int) (h : namesNodup s) : namesNodup (addSkillBtnClick n L s) := by
  by_cases hn : n = ""
  · rwa [hn, addSkillBtnClick_of_empty]
  · by_cases hmem : ∃ e ∈ s, e.name = n
    · rwa [addSkillBtnClick_of_mem L hmem]
    · push_neg at hmem
      rw [addSkillBtnClick_of_not_mem L hn hmem]
      unfold namesNodup at h ⊢
      simp only [List.map_append, List.map_cons, List.map_nil]
      rw [List.nodup_append]
      refine ⟨h, List.nodup_singleton n, ?_⟩
      intro x hx hxn
      rw [List.mem_singleton] at hxn
      obtain ⟨e, he, hne⟩ := List.mem_map.mp hx
      exact hmem e he (hne.trans hxn)

theorem namesNodup_removeSkill {s : List SkillEntry} (n : String)
    (h : namesNodup s) : namesNodup (removeSkill n s) := by
  unfold namesNodup at h ⊢
  exact ((List.filter_sublist s).map (fun e => e.name)).nodup h

theorem namesNodup_updateSkillExperience {s : List SkillEntry} (n : String)
    (L : Int) (h : namesNodup s) :
    namesNodup (updateSkillExperience n L s) := by
  unfold namesNodup at h ⊢
  rwa [names_updateSkillExperience]

/-! ## Claim theorems -/

/-- C2: for every preference set whose levels are valid array lengths, the
derived weighted query repeats each entry name exactly level times joined
by single spaces, in insertion order, with per-entry segments joined by
comma+space; the entries (a,2),(b,1) yield "a a, b", and adding python at
level 4 then machine learning at level 3 yields the expected weighted
string. -/
theorem C2_toWeightedQuery_weighting :
    (∀ s : List SkillEntry, (∀ e ∈ s, 0 ≤ e.experience) →
      updateInterestsInput s = some (specWeightedQuery s))
    ∧ updateInterestsInput [⟨"a", 2⟩, ⟨"b", 1⟩] = some "a a, b"
    ∧ updateInterestsInput (addSkillBtnClick "machine learning" 3
        (addSkillBtnClick "python" 4 [])) =
      some ("python python python python, " ++
        "machine learning machine learning machine learning") :=
  ⟨fun _ h => updateInterestsInput_of_nonneg h, rfl, rfl⟩

/-- Witness for C2 at a concrete input. -/
theorem C2_witness :
    updateInterestsInput [⟨"c", 1⟩] = some (specWeightedQuery [⟨"c", 1⟩]) :=
  C2_toWeightedQuery_weighting.1 [⟨"c", 1⟩] (by decide)

/-- C3: clear empties the preference set and the derived query computed
after clearing is the empty string, whatever the prior state was. -/
theorem C3_clear_resets_query :
    ∀ s : List SkillEntry,
      clearSkills s = [] ∧ updateInterestsInput (clearSkills s) = some "" :=
  fun _ => ⟨rfl, rfl⟩

/-- C7: on the empty preference set the derived query is the empty string,
and the submit handler blocks submission (constructs no request) and
reports an error whose text contains "add at least one skill". -/
theorem C7_empty_set_blocks_submit :
    updateInterestsInput [] = some ""
    ∧ submitForm "" [] = Except.error emptySkillErrorMessage
    ∧ ∃ pre post : String,
        emptySkillErrorMessage = pre ++ "add at least one skill" ++ post :=
  ⟨rfl, rfl, "Please ", " with experience level", by decide⟩

/-- C4: add is a silent no-op when the selected name is empty or already
present, and otherwise appends a new entry at the end of the collection. -/
theorem C4_add_noop_or_append :
    ∀ (s : List SkillEntry) (n : String) (L : Int),
      (n = "" → addSkillBtnClick n L s = s)
      ∧ ((∃ e ∈ s, e.name = n) → addSkillBtnClick n L s = s)
      ∧ (n ≠ "" → (∀ e ∈ s, e.name ≠ n) →
          addSkillBtnClick n L s = s ++ [⟨n, L⟩]) :=
  fun _s _n L =>
    ⟨fun h => h ▸ addSkillBtnClick_of_empty L,
     fun h => addSkillBtnClick_of_mem L h,
     fun hn h => addSkillBtnClick_of_not_mem L hn h⟩

/-- Witness for C4 at concrete inputs: empty name, duplicate name, and a
fresh name. -/
theorem C4_witness :
    addSkillBtnClick "" 3 [⟨"a", 2⟩] = [⟨"a", 2⟩]
    ∧ addSkillBtnClick "a" 5 [⟨"a", 2⟩] = [⟨"a", 2⟩]
    ∧ addSkillBtnClick "b" 4 [⟨"a", 2⟩] = [⟨"a", 2⟩, ⟨"b", 4⟩] :=
  ⟨(C4_add_noop_or_append [⟨"a", 2⟩] "" 3).1 rfl,
   (C4_add_noop_or_append [⟨"a", 2⟩] "a" 5).2.1 ⟨⟨"a", 2⟩, by decide, rfl⟩,
   (C4_add_noop_or_append [⟨"a", 2⟩] "b" 4).2.2 (by decide) (by decide)⟩

/-- C5: a second add of the same name is an idempotent no-op, and starting
from a state without the (non-empty) name, add at level L1 then add at
level L2 leaves exactly one entry for the name, carrying level L1. -/
theorem C5_add_idempotent :
    ∀ (s : List SkillEntry) (n : String) (L1 L2 : Int),
      addSkillBtnClick n L2 (addSkillBtnClick n L1 s) = addSkillBtnClick n L1 s
      ∧ (n ≠ "" → (∀ e ∈ s, e.name ≠ n) →
          (addSkillBtnClick n L2 (addSkillBtnClick n L1 s)).filter
            (fun e => e.name == n) = [⟨n, L1⟩]) := by
  intro s n L1 L2
  constructor
  · by_cases hn : n = ""
    · rw [hn, addSkillBtnClick_of_empty, addSkillBtnClick_of_empty]
    · by_cases hmem : ∃ e ∈ s, e.name = n
      · rw [addSkillBtnClick_of_mem L1 hmem, addSkillBtnClick_of_mem L2 hmem]
      · push_neg at hmem
        rw [addSkillBtnClick_of_not_mem L1 hn hmem]
        refine addSkillBtnClick_of_mem L2 ?_
        exact ⟨⟨n, L1⟩, by simp, rfl⟩
  · intro hn hall
    have hmem2 : ∃ e ∈ s ++ [(⟨n, L1⟩ : SkillEntry)], e.name = n :=
      ⟨⟨n, L1⟩, by simp, rfl⟩
    rw [addSkillBtnClick_of_not_mem L1 hn hall,
      addSkillBtnClick_of_mem L2 hmem2, List.filter_append]
    have h1 : s.filter (fun e => e.name == n) = [] := by
      rw [List.filter_eq_nil_iff]
      intro e he
      simp [hall e he]
    have h2 : List.filter (fun e => e.name == n)
        [(⟨n, L1⟩ : SkillEntry)] = [(⟨n, L1⟩ : SkillEntry)] := by
      simp
    rw [h1, h2, List.nil_append]

/-- Witness for C5 at a concrete input with the freshness hypotheses
discharged. -/
theorem C5_witness :
    addSkillBtnClick "a" 9 (addSkillBtnClick "a" 2 [⟨"b", 1⟩])
        = addSkillBtnClick "a" 2 [⟨"b", 1⟩]
    ∧ (addSkillBtnClick "a" 9 (addSkillBtnClick "a" 2 [⟨"b", 1⟩])).filter
        (fun e => e.name == "a") = [⟨"a", 2⟩] :=
  ⟨(C5_add_idempotent [⟨"b", 1⟩] "a" 2 9).1,
   (C5_add_idempotent [⟨"b", 1⟩] "a" 2 9).2 (by decide) (by decide)⟩

/-- C6: for a state containing the (non-empty) name, remove then add at
level L appends a single entry for the name with level L at the end of the
iteration order. -/
theorem C6_remove_then_add :
    ∀ (s : List SkillEntry) (n : String) (L : Int), n ≠ "" →
      (∃ e ∈ s, e.name = n) →
      addSkillBtnClick n L (removeSkill n s) = removeSkill n s ++ [⟨n, L⟩]
      ∧ (addSkillBtnClick n L (removeSkill n s)).filter
          (fun e => e.name == n) = [⟨n, L⟩] := by
  intro s n L hn _hmem
  have hgone : ∀ e ∈ removeSkill n s, e.name ≠ n := removeSkill_not_mem
  constructor
  · exact addSkillBtnClick_of_not_mem L hn hgone
  · rw [addSkillBtnClick_of_not_mem L hn hgone, List.filter_append]
    have h1 : (removeSkill n s).filter (fun e => e.name == n) = [] := by
      rw [List.filter_eq_nil_iff]
      intro e he
      simp [hgone e he]
    simp [h1]

/-- Witness for C6 at a concrete input: the re-added entry moves from the
front to the end. -/
theorem C6_witness :
    addSkillBtnClick "a" 5 (removeSkill "a" [⟨"a", 2⟩, ⟨"b", 1⟩])
        = [⟨"b", 1⟩, ⟨"a", 5⟩] :=
  (C6_remove_then_add [⟨"a", 2⟩, ⟨"b", 1⟩] "a" 5 (by decide)
    ⟨⟨"a", 2⟩, by decide, rfl⟩).1

/-- C9: remove deletes every entry with the given name; the surviving
entries are exactly the non-matching entries of the original state,
unchanged and in their original relative order (a sublist); with no match
the state is unchanged. -/
theorem C9_remove_frame :
    ∀ (s : List SkillEntry) (n : String),
      (∀ e ∈ removeSkill n s, e.name ≠ n)
      ∧ (removeSkill n s).Sublist s
      ∧ (∀ e ∈ s, e.name ≠ n → e ∈ removeSkill n s)
      ∧ ((∀ e ∈ s, e.name ≠ n) → removeSkill n s = s) :=
  fun s _n =>
    ⟨removeSkill_not_mem,
     List.filter_sublist s,
     fun _ he hne => mem_removeSkill he hne,
     fun h => removeSkill_of_not_mem h⟩

/-- Witness for C9 at a concrete input with the inner hypotheses
discharged. -/
theorem C9_witness :
    (⟨"a", 1⟩ : SkillEntry) ∈ removeSkill "b" [⟨"a", 1⟩, ⟨"b", 2⟩]
    ∧ removeSkill "b" [⟨"a", 1⟩] = [⟨"a", 1⟩] :=
  ⟨(C9_remove_frame [⟨"a", 1⟩, ⟨"b", 2⟩] "b").2.2.1 ⟨"a", 1⟩ (by decide)
      (by decide),
   (C9_remove_frame [⟨"a", 1⟩] "b").2.2.2 (by decide)⟩

/-- C8: every state reachable through the UI operations has at most one
entry per distinct name, and each operation (add, remove, setLevel, clear)
preserves that invariant. -/
theorem C8_unique_names_invariant :
    (∀ s, Reachable s → namesNodup s)
    ∧ (∀ (s : List SkillEntry) (n : String) (L : Int),
        namesNodup s → namesNodup (addSkillBtnClick n L s))
    ∧ (∀ (s : List SkillEntry) (n : String),
        namesNodup s → namesNodup (removeSkill n s))
    ∧ (∀ (s : List SkillEntry) (n : String) (L : Int),
        namesNodup s → namesNodup (updateSkillExperience n L s))
    ∧ (∀ s : List SkillEntry, namesNodup s → namesNodup (clearSkills s)) := by
  have hreach : ∀ s, Reachable s → namesNodup s := by
    intro s hs
    induction hs with
    | init => simp [namesNodup]
    | add t name level _ ih => exact namesNodup_addSkillBtnClick name level ih
    | remove t name _ ih => exact namesNodup_removeSkill name ih
    | setLevel t name level _ ih =>
      exact namesNodup_updateSkillExperience name level ih
    | reset t _ _ => simp [namesNodup, clearSkills]
  exact ⟨hreach,
    fun _ n L h => namesNodup_addSkillBtnClick n L h,
    fun _ n h => namesNodup_removeSkill n h,
    fun _ n L h => namesNodup_updateSkillExperience n L h,
    fun _ _ => by simp [namesNodup, clearSkills]⟩

/-- Witness for C8 on a concrete reachable state. -/
theorem C8_witness : namesNodup (addSkillBtnClick "python" 4 []) :=
  C8_unique_names_invariant.1 _ (Reachable.add [] "python" 4 Reachable.init)

/-- C10: when every level is a non-negative integer the weighted-query
computation terminates with a string; when some level is negative (not a
valid array length) the Array construction raises, modelled by none. -/
theorem C10_query_totality :
    ∀ s : List SkillEntry,
      ((∀ e ∈ s, 0 ≤ e.experience) → ∃ q, updateInterestsInput s = some q)
      ∧ ((∃ e ∈ s, e.experience < 0) → updateInterestsInput s = none) :=
  fun s =>
    ⟨fun h => ⟨specWeightedQuery s, updateInterestsInput_of_nonneg h⟩,
     fun h => by simp [updateInterestsInput, mapWeighted_eq_none h]⟩

/-- Witness for C10 at concrete inputs: a valid level and a negative one. -/
theorem C10_witness :
    (∃ q, updateInterestsInput [⟨"a", 2⟩] = some q)
    ∧ updateInterestsInput [⟨"a", -1⟩] = none :=
  ⟨(C10_query_totality [⟨"a", 2⟩]).1 (by decide),
   (C10_query_totality [⟨"a", -1⟩]).2 ⟨⟨"a", -1⟩, by decide, by decide⟩⟩

/-- C1 counterexample: `updateSkillExperience` accepts the out-of-range
levels 0 and 6 and overwrites the stored level, contradicting the claim
that the state is left unchanged with a validation error. -/
theorem C1_counterexample :
    updateSkillExperience "python" 0 [⟨"python", 3⟩] = [⟨"python", 0⟩]
    ∧ updateSkillExperience "python" 6 [⟨"python", 3⟩] = [⟨"python", 6⟩]
    ∧ updateSkillExperience "python" 0 [⟨"python", 3⟩] ≠ [⟨"python", 3⟩] :=
  ⟨rfl, rfl, by decide⟩

/-- C1 amended: `updateSkillExperience` performs no range validation and
reports no error; it stores any integer level as-is into the first entry
with the given name, leaves every other entry (and all names) unchanged,
and is a no-op when no entry matches. -/
theorem C1_setLevel_no_validation :
    ∀ (s : List SkillEntry) (n : String) (L : Int),
      ((∀ e ∈ s, e.name ≠ n) → updateSkillExperience n L s = s)
      ∧ (updateSkillExperience n L s).map (fun e => e.name)
          = s.map (fun e => e.name)
      ∧ (∀ (pre post : List SkillEntry) (e : SkillEntry),
          (∀ x ∈ pre, x.name ≠ n) → e.name = n →
          updateSkillExperience n L (pre ++ e :: post)
            = pre ++ { e with experience := L } :: post) := by
  intro s n L
  refine ⟨fun h => updateSkillExperience_of_not_found L h,
    names_updateSkillExperience n L s, ?_⟩
  intro pre post e
  induction pre with
  | nil =>
    intro _ hname
    simp [updateSkillExperience, hname]
  | cons a t ih =>
    intro hpre hname
    have ha := hpre a (List.mem_cons_self a t)
    have ht : ∀ x ∈ t, x.name ≠ n :=
      fun x hx => hpre x (List.mem_cons_of_mem a hx)
    simp [updateSkillExperience, ha, ih ht hname]

/-- Witness for C1 amended at concrete inputs. -/
theorem C1_witness :
    updateSkillExperience "a" 0 [⟨"b", 2⟩] = [⟨"b", 2⟩]
    ∧ updateSkillExperience "a" 6 [⟨"b", 2⟩, ⟨"a", 3⟩]
        = [⟨"b", 2⟩, ⟨"a", 6⟩] := by
  constructor
  · exact (C1_setLevel_no_validation [⟨"b", 2⟩] "a" 0).1 (by decide)
  · have h := (C1_setLevel_no_validation [] "a" 6).2.2
      [⟨"b", 2⟩] [] ⟨"a", 3⟩ (by decide) rfl
    simpa using h

end StudentRecommender
